import Mathlib

/-!
# Verification of the subscription-tracker billing engine

A shallow embedding of the engine in `internal/service/spending.go` and
`internal/service/subscription.go` (Go), together with proofs of the
properties stated in the specification.

The Go code manipulates `time.Time` values restricted to UTC midnights
(and one `Add(-time.Second)`), so we model:

* a calendar date as a `Date` structure (proleptic Gregorian, the calendar
  implemented by Go's `time` package), carrying its validity invariant;
* a `time.Time` as a `GoTime`: a date plus a second-of-day;
* `time.Date(y, m, d, ...)`'s argument normalization as `goDate`
  (normalize the month into `[1,12]` shifting the year, then walk the
  day offset a day at a time — extensionally Go's behaviour);
* `time.Time.AddDate` as `addDate` (Go: `Date(y+dy, m+dm, d+dd, ...)`).
-/

namespace SubTracker

/-- Leap year test of the proleptic Gregorian calendar (Go `time.isLeap`).
`%` on `Int` and Go's `%` agree on the `= 0` tests used here. -/
def isLeap (y : Int) : Bool :=
  y % 4 == 0 && (y % 100 != 0 || y % 400 == 0)

/-- Number of days in month `m` of year `y` (Go month lengths; the value on
junk months outside `[1,12]` is irrelevant, every use is guarded). -/
def daysIn (y m : Int) : Int :=
  if m = 2 then (if isLeap y then 29 else 28)
  else if m = 4 ∨ m = 6 ∨ m = 9 ∨ m = 11 then 30
  else 31

theorem daysIn_ge (y m : Int) : 28 ≤ daysIn y m := by
  unfold daysIn
  split
  · split <;> omega
  · split <;> omega

theorem daysIn_le (y m : Int) : daysIn y m ≤ 31 := by
  unfold daysIn
  split
  · split <;> omega
  · split <;> omega

theorem daysIn_ne_two (y y' m : Int) (h : m ≠ 2) : daysIn y m = daysIn y' m := by
  unfold daysIn
  simp [h]

theorem daysIn_twelve (y : Int) : daysIn y 12 = 31 := by
  unfold daysIn
  norm_num

/-- A valid calendar date. Go's `time.Time` always denotes a valid
(normalized) date, so the invariant is carried in the type. -/
structure Date where
  year : Int
  month : Int
  day : Int
  hm : 1 ≤ month ∧ month ≤ 12
  hd : 1 ≤ day ∧ day ≤ daysIn year month

theorem Date.ext_iff {a b : Date} :
    a = b ↔ a.year = b.year ∧ a.month = b.month ∧ a.day = b.day := by
  constructor
  · intro h; rw [h]; exact ⟨rfl, rfl, rfl⟩
  · rintro ⟨h1, h2, h3⟩
    cases a; cases b
    simp only at h1 h2 h3
    subst h1; subst h2; subst h3
    rfl

instance : DecidableEq Date := fun a b =>
  decidable_of_iff (a.year = b.year ∧ a.month = b.month ∧ a.day = b.day)
    Date.ext_iff.symm

/-- The day after `t` (used to model `time.Date`'s day-offset normalization). -/
def nextDay (t : Date) : Date :=
  if h : t.day < daysIn t.year t.month then
    ⟨t.year, t.month, t.day + 1, t.hm, by have := t.hd; omega⟩
  else if h2 : t.month < 12 then
    ⟨t.year, t.month + 1, 1, by have := t.hm; omega,
      by have := daysIn_ge t.year (t.month + 1); omega⟩
  else
    ⟨t.year + 1, 1, 1, by omega, by have := daysIn_ge (t.year + 1) 1; omega⟩

/-- The day before `t`. -/
def prevDay (t : Date) : Date :=
  if h : 1 < t.day then
    ⟨t.year, t.month, t.day - 1, t.hm, by have := t.hd; omega⟩
  else if h2 : 1 < t.month then
    ⟨t.year, t.month - 1, daysIn t.year (t.month - 1), by have := t.hm; omega,
      by have := daysIn_ge t.year (t.month - 1); omega⟩
  else
    ⟨t.year - 1, 12, 31, by omega, by rw [daysIn_twelve]; omega⟩

/-- `n` days after `t`. -/
def addDays : Date → Nat → Date
  | t, 0 => t
  | t, n + 1 => addDays (nextDay t) n

/-- `n` days before `t`. -/
def subDays : Date → Nat → Date
  | t, 0 => t
  | t, n + 1 => subDays (prevDay t) n

/-- Embedding of Go's `time.Date(y, m, d, 0, 0, 0, 0, time.UTC)` (at day
granularity): the month is normalized into `[1,12]` carrying overflow into
the year, and the day argument is an offset from day 1 of that month,
normalized through the calendar. -/
def goDate (y m d : Int) : Date :=
  let y1 := y + (m - 1) / 12
  let m1 := (m - 1) % 12 + 1
  let base : Date := ⟨y1, m1, 1, by omega, by have := daysIn_ge y1 m1; omega⟩
  if 1 ≤ d then addDays base (d - 1).toNat else subDays base (1 - d).toNat

theorem addDays_within (y m : Int) (hm : 1 ≤ m ∧ m ≤ 12) :
    ∀ (k : Nat) (d : Int) (hd : 1 ≤ d ∧ d ≤ daysIn y m) (hk : d + k ≤ daysIn y m),
      addDays ⟨y, m, d, hm, hd⟩ k = ⟨y, m, d + k, hm, by omega⟩ := by
  intro k
  induction k with
  | zero => intro d hd _; simp [addDays]
  | succ n ih =>
    intro d hd hk
    have hlt : d < daysIn y m := by omega
    have hnext : nextDay ⟨y, m, d, hm, hd⟩ = ⟨y, m, d + 1, hm, by omega⟩ := by
      unfold nextDay
      simp only [dif_pos hlt]
    rw [show addDays ⟨y, m, d, hm, hd⟩ (n + 1) = addDays (nextDay ⟨y, m, d, hm, hd⟩) n from rfl,
      hnext, ih (d + 1) (by omega) (by omega)]
    rw [Date.ext_iff]
    refine ⟨rfl, rfl, ?_⟩
    simp only
    omega

/-- On in-range arguments `time.Date` performs no normalization. -/
theorem goDate_valid (y m d : Int) (hm : 1 ≤ m ∧ m ≤ 12) (hd : 1 ≤ d ∧ d ≤ daysIn y m) :
    goDate y m d = ⟨y, m, d, hm, hd⟩ := by
  unfold goDate
  have h1 : (m - 1) / 12 = 0 := by omega
  have h2 : (m - 1) % 12 = m - 1 := by omega
  simp only [h1, h2, add_zero]
  rw [if_pos hd.1]
  have hsub : m - 1 + 1 = m := by omega
  have hbase : (⟨y, m - 1 + 1, 1, by omega, by have := daysIn_ge y (m - 1 + 1); omega⟩ : Date)
      = ⟨y, m, 1, by omega, by have := daysIn_ge y m; omega⟩ := by
    rw [Date.ext_iff]; exact ⟨rfl, hsub, rfl⟩
  rw [hbase, addDays_within y m (by omega) (d - 1).toNat 1 (by have := daysIn_ge y m; omega)
    (by omega)]
  rw [Date.ext_iff]
  refine ⟨rfl, rfl, ?_⟩
  simp only
  omega

/-- Number of leap years in `[1, y]` (for `y ≥ 0`); the usual Gregorian
day-count correction term. -/
def leaps (y : Int) : Int := y / 4 - y / 100 + y / 400

/-- Days strictly before month `m` within year `y`. -/
def daysBeforeMonth (y m : Int) : Int :=
  (if m ≤ 1 then 0 else if m = 2 then 31 else if m = 3 then 59 else if m = 4 then 90
   else if m = 5 then 120 else if m = 6 then 151 else if m = 7 then 181 else if m = 8 then 212
   else if m = 9 then 243 else if m = 10 then 273 else if m = 11 then 304 else 334)
  + (if 3 ≤ m then (if isLeap y then 1 else 0) else 0)

/-- Linear day numbering of the proleptic Gregorian calendar
(`toD 1 1 1 = 0`; the offset is irrelevant, only differences matter). -/
def toD (y m d : Int) : Int :=
  365 * (y - 1) + leaps (y - 1) + daysBeforeMonth y m + (d - 1)

/-- Day numbering of a `Date`. -/
def Date.toDays (t : Date) : Int := toD t.year t.month t.day

@[simp] theorem Date.toDays_mk (y m d : Int) (h1 h2) :
    (⟨y, m, d, h1, h2⟩ : Date).toDays = toD y m d := rfl

@[simp] theorem Date.year_mk (y m d : Int) (h1 h2) :
    (⟨y, m, d, h1, h2⟩ : Date).year = y := rfl

@[simp] theorem Date.month_mk (y m d : Int) (h1 h2) :
    (⟨y, m, d, h1, h2⟩ : Date).month = m := rfl

@[simp] theorem Date.day_mk (y m d : Int) (h1 h2) :
    (⟨y, m, d, h1, h2⟩ : Date).day = d := rfl

theorem leaps_step (y : Int) : leaps y = leaps (y - 1) + (if isLeap y then 1 else 0) := by
  by_cases c4 : y % 4 = 0 <;> by_cases c100 : y % 100 = 0 <;> by_cases c400 : y % 400 = 0 <;>
    simp only [leaps, isLeap, c4, c100, c400] <;> norm_num <;> omega

theorem daysBeforeMonth_succ (y m : Int) (h1 : 1 ≤ m) (h2 : m ≤ 11) :
    daysBeforeMonth y (m + 1) = daysBeforeMonth y m + daysIn y m := by
  interval_cases m <;> cases hl : isLeap y <;>
    simp [daysBeforeMonth, daysIn, hl]

theorem toD_prevDay (t : Date) : (prevDay t).toDays = t.toDays - 1 := by
  obtain ⟨y, m, d, hm, hd⟩ := t
  unfold prevDay
  by_cases h : 1 < d
  · simp only [dif_pos h, Date.toDays_mk, toD]
    omega
  · rw [dif_neg h]
    by_cases h2 : 1 < m
    · simp only [dif_pos h2, Date.toDays_mk]
      have key : daysBeforeMonth y m = daysBeforeMonth y (m - 1) + daysIn y (m - 1) := by
        have := daysBeforeMonth_succ y (m - 1) (by omega) (by omega)
        have hmm : m - 1 + 1 = m := by omega
        rw [hmm] at this
        exact this
      simp only [toD]
      omega
    · simp only [dif_neg h2, Date.toDays_mk]
      have hm1 : m = 1 := by omega
      have hd1 : d = 1 := by omega
      subst hm1; subst hd1
      have key := leaps_step (y - 1)
      cases hl : isLeap (y - 1) <;>
        simp only [hl, if_true, if_false, Bool.false_eq_true, toD, daysBeforeMonth] at key ⊢ <;>
        norm_num <;> omega

theorem toD_nextDay (t : Date) : (nextDay t).toDays = t.toDays + 1 := by
  obtain ⟨y, m, d, hm, hd⟩ := t
  unfold nextDay
  by_cases h : d < daysIn y m
  · simp only [dif_pos h, Date.toDays_mk, toD]
    omega
  · rw [dif_neg h]
    by_cases h2 : m < 12
    · simp only [dif_pos h2, Date.toDays_mk]
      have key := daysBeforeMonth_succ y m (by omega) (by omega)
      simp only [toD]
      omega
    · simp only [dif_neg h2, Date.toDays_mk]
      have hm12 : m = 12 := by omega
      subst hm12
      have hdd : d = 31 := by have := daysIn_twelve y; omega
      subst hdd
      have key := leaps_step y
      cases hl : isLeap y <;>
        simp only [hl, if_true, if_false, Bool.false_eq_true, toD, daysBeforeMonth] at key ⊢ <;>
        norm_num <;> omega

/-- Embedding of a Go `time.Time` (UTC), at second granularity: a valid
date plus a second-of-day. The code only ever subtracts one second from a
midnight, so seconds suffice. -/
structure GoTime where
  date : Date
  sec : Int
  hs : 0 ≤ sec ∧ sec < 86400

/-- A date at `00:00:00 UTC`, as produced by `time.Date(y, m, d, 0, 0, 0, 0, time.UTC)`. -/
def midnight (d : Date) : GoTime := ⟨d, 0, by omega⟩

/-- Absolute seconds of a `GoTime`; Go's `Before`/`After`/`Equal` compare
these. -/
def GoTime.toSec (t : GoTime) : Int := 86400 * t.date.toDays + t.sec

/-- Embedding of `t.Add(-time.Second)`. -/
def subOneSec (t : GoTime) : GoTime :=
  if h : t.sec = 0 then ⟨prevDay t.date, 86399, by omega⟩
  else ⟨t.date, t.sec - 1, by have := t.hs; omega⟩

@[simp] theorem GoTime.toSec_mk (d : Date) (s : Int) (h) :
    (⟨d, s, h⟩ : GoTime).toSec = 86400 * d.toDays + s := rfl

@[simp] theorem GoTime.date_mk (d : Date) (s : Int) (h) :
    (⟨d, s, h⟩ : GoTime).date = d := rfl

@[simp] theorem GoTime.sec_mk (d : Date) (s : Int) (h) :
    (⟨d, s, h⟩ : GoTime).sec = s := rfl

theorem subOneSec_toSec (t : GoTime) : (subOneSec t).toSec = t.toSec - 1 := by
  obtain ⟨d, s, hs⟩ := t
  unfold subOneSec
  split <;> rename_i h <;>
    simp only [GoTime.date_mk, GoTime.sec_mk, GoTime.toSec_mk, toD_prevDay] at h ⊢ <;>
    omega

theorem addDays_split (a b : Nat) : ∀ t : Date, addDays t (a + b) = addDays (addDays t a) b := by
  induction a with
  | zero => intro t; rw [Nat.zero_add]; rfl
  | succ n ih =>
    intro t
    have h1 : n + 1 + b = (n + b) + 1 := by omega
    rw [h1]
    show addDays (nextDay t) (n + b) = addDays (addDays (nextDay t) n) b
    exact ih (nextDay t)

/-- `time.Date(y, m+1, 0, ...)` is the last day of month `m` of year `y`
(the Go day-zero idiom used by `addMonth` and
`calculateMonthlyRenewalInPeriod`). -/
theorem goDate_day_zero (y M : Int) : goDate y M 0 = prevDay (goDate y M 1) := by
  unfold goDate
  norm_num
  rfl

theorem goDate_thirteen (y : Int) :
    goDate y 13 1 = ⟨y + 1, 1, 1, by omega, by have := daysIn_ge (y + 1) 1; omega⟩ := by
  unfold goDate
  norm_num
  rfl

theorem goDate_zero (y m : Int) (h1 : 1 ≤ m) (h2 : m ≤ 12) :
    goDate y (m + 1) 0 = ⟨y, m, daysIn y m, ⟨h1, h2⟩,
      ⟨by have := daysIn_ge y m; omega, le_refl _⟩⟩ := by
  rw [goDate_day_zero]
  by_cases h12 : m = 12
  · subst h12
    rw [show (12:Int) + 1 = 13 from by norm_num, goDate_thirteen]
    unfold prevDay
    rw [dif_neg (by simp), dif_neg (by simp)]
    rw [Date.ext_iff]
    refine ⟨by simp, by simp, by simp [daysIn_twelve]⟩
  · rw [goDate_valid y (m + 1) 1 (by omega) (by have := daysIn_ge y (m + 1); omega)]
    unfold prevDay
    rw [dif_neg (by simp)]
    rw [dif_pos (by simp; omega)]
    rw [Date.ext_iff]
    refine ⟨by simp, by simp, by simp⟩

/-- Embedding of the Go code's year/month roll in `addMonth`:
`month++; if month > 12 { month = 1; year++ }`. -/
def rollYM (t : Date) : Int × Int :=
  if t.month + 1 > 12 then (t.year + 1, 1) else (t.year, t.month + 1)

/-- `lastDayOfMonth := time.Date(year, month+1, 0, 0, 0, 0, 0, time.UTC).Day()`. -/
def lastDayOfMonth (y m : Int) : Int := (goDate y (m + 1) 0).day

theorem lastDayOfMonth_eq (y m : Int) (h1 : 1 ≤ m) (h2 : m ≤ 12) :
    lastDayOfMonth y m = daysIn y m := by
  unfold lastDayOfMonth
  rw [goDate_zero y m h1 h2]

/-- Embedding of `addMonth` (subscription.go): add one month, clamping the
day to the last day of the target month. -/
def addMonth (t : Date) : Date :=
  let ym := rollYM t
  let last := lastDayOfMonth ym.1 ym.2
  goDate ym.1 ym.2 (if t.day > last then last else t.day)

theorem rollYM_bounds (t : Date) : 1 ≤ (rollYM t).2 ∧ (rollYM t).2 ≤ 12 := by
  unfold rollYM
  have := t.hm
  split <;> simp <;> omega

theorem addMonth_fields (t : Date) :
    (addMonth t).year = (rollYM t).1 ∧ (addMonth t).month = (rollYM t).2 ∧
    (addMonth t).day = min t.day (daysIn (rollYM t).1 (rollYM t).2) := by
  have hb := rollYM_bounds t
  have hlast := lastDayOfMonth_eq (rollYM t).1 (rollYM t).2 hb.1 hb.2
  have hd := t.hd
  have hge := daysIn_ge (rollYM t).1 (rollYM t).2
  unfold addMonth
  simp only [hlast]
  rw [goDate_valid (rollYM t).1 (rollYM t).2 _ ⟨hb.1, hb.2⟩
    (by split <;> omega)]
  refine ⟨rfl, rfl, ?_⟩
  simp only [Date.day_mk]
  split <;> omega

theorem rollYM_index (t : Date) :
    12 * (rollYM t).1 + (rollYM t).2 = 12 * t.year + t.month + 1 := by
  unfold rollYM
  have := t.hm
  split <;> simp <;> omega

theorem addMonth_index (t : Date) :
    12 * (addMonth t).year + (addMonth t).month = 12 * t.year + t.month + 1 := by
  have h := addMonth_fields t
  rw [h.1, h.2.1]
  exact rollYM_index t

/-- Embedding of Go's `t.AddDate(dy, dm, dd)` =
`time.Date(y+dy, m+dm, d+dd, ...)`. -/
def addDate (t : Date) (dy dm dd : Int) : Date :=
  goDate (t.year + dy) (t.month + dm) (t.day + dd)

/-- Behaviour of the yearly step `t.AddDate(1, 0, 0)`: keep month and day;
a Feb 29 source whose target year is non-leap normalizes (Go semantics)
to Mar 1. -/
theorem addYear_spec (t : Date) :
    addDate t 1 0 0 =
      if h : t.day ≤ daysIn (t.year + 1) t.month then
        ⟨t.year + 1, t.month, t.day, t.hm, ⟨t.hd.1, h⟩⟩
      else ⟨t.year + 1, 3, 1, by omega, by have := daysIn_ge (t.year + 1) 3; omega⟩ := by
  obtain ⟨y, m, d, hm, hd⟩ := t
  unfold addDate
  simp only [Date.year_mk, Date.month_mk, Date.day_mk, add_zero]
  split
  · exact goDate_valid (y + 1) m d hm ⟨hd.1, by assumption⟩
  · rename_i hcl
    have hm2 : m = 2 := by
      by_contra hne
      have := daysIn_ne_two y (y + 1) m hne
      omega
    subst hm2
    have hleA : daysIn y 2 ≤ 29 := by
      unfold daysIn
      norm_num
      split <;> omega
    have hgeB := daysIn_ge (y + 1) 2
    have hleB : daysIn (y + 1) 2 ≤ 29 := by
      unfold daysIn
      norm_num
      split <;> omega
    have hd29 : d = 29 := by omega
    have h28 : daysIn (y + 1) 2 = 28 := by omega
    subst hd29
    unfold goDate
    norm_num
    have hstep : Int.toNat 28 = 27 + 1 := rfl
    rw [hstep, addDays_split]
    rw [addDays_within (y + 1) 2 (by omega) 27 1 (by have := daysIn_ge (y + 1) 2; omega)
      (by omega)]
    show nextDay _ = _
    unfold nextDay
    rw [dif_neg (by simp [h28])]
    rw [dif_pos (by simp)]
    rw [Date.ext_iff]
    refine ⟨by simp, by simp, by simp⟩

theorem addDate_year (t : Date) : (addDate t 1 0 0).year = t.year + 1 := by
  rw [addYear_spec t]
  split <;> simp

/-- Embedding of `time.Time.Before` for the date-valued (midnight) times
compared by the renewal advancer: chronological order of valid dates is
lexicographic on (year, month, day). -/
def beforeD (a b : Date) : Bool :=
  a.year < b.year ||
    (a.year == b.year && (a.month < b.month || (a.month == b.month && a.day < b.day)))

theorem beforeD_index (a b : Date) (h : beforeD a b = true) :
    12 * a.year + a.month ≤ 12 * b.year + b.month := by
  have ha := a.hm
  have hb := b.hm
  unfold beforeD at h
  simp only [Bool.or_eq_true, Bool.and_eq_true, decide_eq_true_eq, beq_iff_eq] at h
  rcases h with h | ⟨h1, h | h⟩ <;> omega

/-- The `for newDate.Before(referenceTime) { newDate = addMonth(newDate) }`
loop of `CalculateNextRenewalDate`, with an explicit iteration bound. -/
def advMonthly (ref : Date) : Nat → Date → Date
  | 0, d => d
  | Nat.succ n, d => if beforeD d ref then advMonthly ref n (addMonth d) else d

/-- The yearly loop: `for newDate.Before(referenceTime) { newDate = newDate.AddDate(1, 0, 0) }`. -/
def advYearly (ref : Date) : Nat → Date → Date
  | 0, d => d
  | Nat.succ n, d => if beforeD d ref then advYearly ref n (addDate d 1 0 0) else d

/-- Proven-sufficient iteration bound for the monthly loop. -/
def monthlyFuel (ref cur : Date) : Nat :=
  (12 * ref.year + ref.month + 1 - (12 * cur.year + cur.month)).toNat

/-- Proven-sufficient iteration bound for the yearly loop. -/
def yearlyFuel (ref cur : Date) : Nat := (ref.year + 1 - cur.year).toNat

/-- Embedding of `CalculateNextRenewalDate` (subscription.go): advance the
stored date by months (cycle "monthly") or years (otherwise) until it is
not before the reference date. -/
def CalculateNextRenewalDate (currentRenewal : Date) (billingCycle : String)
    (referenceTime : Date) : Date :=
  if billingCycle == "monthly" then
    advMonthly referenceTime (monthlyFuel referenceTime currentRenewal) currentRenewal
  else
    advYearly referenceTime (yearlyFuel referenceTime currentRenewal) currentRenewal

theorem advMonthly_not_before (ref : Date) :
    ∀ (n : Nat) (d : Date), monthlyFuel ref d ≤ n →
      beforeD (advMonthly ref n d) ref = false := by
  intro n
  induction n with
  | zero =>
    intro d hf
    show beforeD d ref = false
    cases hb : beforeD d ref
    · rfl
    · have := beforeD_index d ref hb
      unfold monthlyFuel at hf
      omega
  | succ n ih =>
    intro d hf
    show beforeD (if beforeD d ref then advMonthly ref n (addMonth d) else d) ref = false
    cases hb : beforeD d ref
    · simpa using hb
    · simp only [if_true]
      apply ih
      have hidx := addMonth_index d
      have := beforeD_index d ref hb
      unfold monthlyFuel at hf ⊢
      omega

theorem advYearly_not_before (ref : Date) :
    ∀ (n : Nat) (d : Date), yearlyFuel ref d ≤ n →
      beforeD (advYearly ref n d) ref = false := by
  intro n
  induction n with
  | zero =>
    intro d hf
    show beforeD d ref = false
    cases hb : beforeD d ref
    · rfl
    · have h1 := beforeD_index d ref hb
      have := d.hm
      have := ref.hm
      unfold yearlyFuel at hf
      omega
  | succ n ih =>
    intro d hf
    show beforeD (if beforeD d ref then advYearly ref n (addDate d 1 0 0) else d) ref = false
    cases hb : beforeD d ref
    · simpa using hb
    · simp only [if_true]
      apply ih
      have hidx := addDate_year d
      have h1 := beforeD_index d ref hb
      have := d.hm
      have := ref.hm
      unfold yearlyFuel at hf ⊢
      omega

/-- Loop postcondition: the computed next renewal date is never before the
reference date. -/
theorem calculateNextRenewalDate_not_before (cur : Date) (cycle : String) (ref : Date) :
    beforeD (CalculateNextRenewalDate cur cycle ref) ref = false := by
  unfold CalculateNextRenewalDate
  split
  · exact advMonthly_not_before ref _ cur (le_refl _)
  · exact advYearly_not_before ref _ cur (le_refl _)

/-! ## Stored dates as strings: `time.Parse("2006-01-02", s)` and
`t.Format("2006-01-02")` -/

/-- Numeric value of a digit character. -/
def digitVal (c : Char) : Int := (c.toNat : Int) - 48

/-- ASCII digit test (`c >= '0' && c <= '9'` on the code point). -/
def isDig (c : Char) : Bool := decide (48 ≤ c.toNat) && decide (c.toNat ≤ 57)

/-- Field decoding of a ten-character candidate `dddd-dd-dd` stored date. -/
def parseDateCore (y1 y2 y3 y4 sep1 mo1 mo2 sep2 d1 d2 : Char) : Option Date :=
  if isDig y1 && isDig y2 && isDig y3 && isDig y4 && sep1 == '-' &&
     isDig mo1 && isDig mo2 && sep2 == '-' && isDig d1 && isDig d2 then
    let y := 1000 * digitVal y1 + 100 * digitVal y2 + 10 * digitVal y3 + digitVal y4
    let m := 10 * digitVal mo1 + digitVal mo2
    let d := 10 * digitVal d1 + digitVal d2
    if h : (1 ≤ m ∧ m ≤ 12) ∧ (1 ≤ d ∧ d ≤ daysIn y m) then
      some ⟨y, m, d, h.1, h.2⟩
    else none
  else none

/-- Embedding of `time.Parse("2006-01-02", s)`: exactly ten characters
`dddd-dd-dd`, month in `[1,12]`, day valid for that month (Go rejects
out-of-range months and days); any other input is a parse error (`none`). -/
def parseDate (s : String) : Option Date :=
  match s.data with
  | [y1, y2, y3, y4, sep1, mo1, mo2, sep2, d1, d2] =>
    parseDateCore y1 y2 y3 y4 sep1 mo1 mo2 sep2 d1 d2
  | _ => none

/-- Character of a digit value in `[0, 9]`. -/
def digitChar (n : Int) : Char := Char.ofNat (48 + n.toNat)

/-- Decimal digits of `n` (fuel-bounded structural recursion; any
`fuel > n` is exact). -/
def natDigitsF : Nat → Nat → List Char
  | 0, _ => []
  | fuel + 1, n => if n < 10 then [digitChar n] else natDigitsF fuel (n / 10) ++ [digitChar (n % 10)]

/-- The year as formatted by Go's `Format("2006")`: zero-padded to four
digits, full decimal expansion beyond 9999, sign-prefixed when negative. -/
def yearChars (y : Int) : List Char :=
  if y < 0 then '-' :: natDigitsF ((-y).toNat + 1) (-y).toNat
  else if y < 10000 then
    [digitChar (y / 1000), digitChar (y / 100 % 10), digitChar (y / 10 % 10), digitChar (y % 10)]
  else natDigitsF (y.toNat + 1) y.toNat

/-- Two-digit zero-padded field (`Format`'s "01" / "02" verbs). -/
def pad2 (n : Int) : List Char := [digitChar (n / 10 % 10), digitChar (n % 10)]

/-- Embedding of `t.Format("2006-01-02")`. -/
def formatDate (t : Date) : String :=
  ⟨yearChars t.year ++ '-' :: pad2 t.month ++ '-' :: pad2 t.day⟩

/-! ## Subscriptions and the renewal advancer -/

/-- A subscription row at the granularity the engine uses.
`nextRenewalDate` models the `sql.NullString` column: `none` is SQL NULL
(`Valid == false`). Amounts (Go `float64`) are modelled as rationals: the
engine only adds and compares them, and no claim depends on rounding. -/
structure Subscription where
  id : Int
  name : String
  amount : ℚ
  billingCycle : String
  nextRenewalDate : Option String
  deriving DecidableEq

/-- One row's decision inside `AdvanceRenewalDatesFrom`: `some s` when the
stored date is valid, parses and is strictly before `today`, where `s` is
the formatted advanced date to write back; `none` when the row is skipped
(`continue` / not overdue). -/
def advanceStep (today : Date) (sub : Subscription) : Option String :=
  match sub.nextRenewalDate with
  | none => none
  | some s =>
    match parseDate s with
    | none => none
    | some renewalDate =>
      if beforeD renewalDate today then
        some (formatDate (CalculateNextRenewalDate renewalDate sub.billingCycle today))
      else none

/-- The updates a failure-free run of `AdvanceRenewalDatesFrom` persists,
as (id, new stored string) pairs, in list order. -/
def advanceRenewalDatesFrom (subs : List Subscription) (today : Date) : List (Int × String) :=
  subs.filterMap fun sub => (advanceStep today sub).map fun s => (sub.id, s)

/-- The stored state after the run: each row that the run updated carries
its new stored string. -/
def applyAdvance (today : Date) (sub : Subscription) : Subscription :=
  match advanceStep today sub with
  | none => sub
  | some s => { sub with nextRenewalDate := some s }

/-- `AdvanceRenewalDatesFrom` with its persistence boundary made explicit:
`persistFails id` says whether the `UpdateRenewalDate` write for row `id`
fails. Returns the writes that actually happened, and the error the Go
function returns (naming the subscription) - the loop body `return`s on the
first failed write. -/
def advanceRun (persistFails : Int → Bool) (today : Date) :
    List Subscription → List (Int × String) × Option String
  | [] => ([], none)
  | sub :: rest =>
    match advanceStep today sub with
    | none => advanceRun persistFails today rest
    | some s =>
      if persistFails sub.id then ([], some sub.name)
      else
        let r := advanceRun persistFails today rest
        ((sub.id, s) :: r.1, r.2)

/-! ## The spending engine (spending.go) -/

/-- Period resolution of `CalculateForMonth`: start is `cutoffDay` of the
previous month at midnight, end is `cutoffDay` of `(year, month)` minus one
second. -/
def resolvePeriod (year month cutoffDay : Int) : GoTime × GoTime :=
  let pm := month - 1
  let pm2 := if pm < 1 then 12 else pm
  let py2 := if pm < 1 then year - 1 else year
  (midnight (goDate py2 pm2 cutoffDay), subOneSec (midnight (goDate year month cutoffDay)))

/-- `isDateInPeriod`: `(date.Equal(start) || date.After(start)) &&
(date.Before(end) || date.Equal(end))`. -/
def isDateInPeriod (t s e : GoTime) : Bool :=
  (t.toSec == s.toSec || s.toSec < t.toSec) && (t.toSec < e.toSec || t.toSec == e.toSec)

/-- The month-by-month loop of `calculateMonthlyRenewalInPeriod`, with an
explicit iteration bound (the Go loop runs once per calendar month the
period touches). -/
def monthLoop (renewalDay : Int) (pStart pEnd endMonth : GoTime) :
    Nat → GoTime → Option GoTime
  | 0, _ => none
  | n + 1, current =>
    if endMonth.toSec < current.toSec then none
    else
      let last := lastDayOfMonth current.date.year current.date.month
      let day := if renewalDay > last then last else renewalDay
      let renewalDate := midnight (goDate current.date.year current.date.month day)
      if isDateInPeriod renewalDate pStart pEnd then some renewalDate
      else monthLoop renewalDay pStart pEnd endMonth n (midnight (addDate current.date 0 1 0))

/-- Embedding of `calculateMonthlyRenewalInPeriod`: the clamped occurrence
of `renewalDay` in the first month of the period's span through the month
of its end, if one lands inside the period. -/
def calculateMonthlyRenewalInPeriod (renewalDay : Int) (pStart pEnd : GoTime) : Option GoTime :=
  let current := midnight (goDate pStart.date.year pStart.date.month 1)
  let endMonth := midnight (goDate pEnd.date.year pEnd.date.month 1)
  monthLoop renewalDay pStart pEnd endMonth
    ((12 * pEnd.date.year + pEnd.date.month + 1
      - (12 * pStart.date.year + pStart.date.month)).toNat + 1) current

/-- Row test of `getYearlySubscriptionsInPeriod`: valid, parsable, and the
stored date itself lies in the period. -/
def yearlyRowMatches (s e : GoTime) (sub : Subscription) : Bool :=
  match sub.nextRenewalDate with
  | none => false
  | some str =>
    match parseDate str with
    | none => false
    | some d => isDateInPeriod (midnight d) s e

/-- Row test of `getMonthlySubscriptionsInPeriod`: the stored date itself
lies in the period, or a clamped occurrence of its day does. -/
def monthlyRowMatches (s e : GoTime) (sub : Subscription) : Bool :=
  match sub.nextRenewalDate with
  | none => false
  | some str =>
    match parseDate str with
    | none => false
    | some d =>
      isDateInPeriod (midnight d) s e || (calculateMonthlyRenewalInPeriod d.day s e).isSome

/-- `getYearlySubscriptionsInPeriod` over an explicit row list (the SQL
query pre-filters `billing_cycle = 'yearly'`; list order is irrelevant to
the claims). -/
def getYearlySubscriptionsInPeriod (subs : List Subscription) (s e : GoTime) :
    List Subscription :=
  subs.filter (yearlyRowMatches s e)

/-- `getMonthlySubscriptionsInPeriod` over an explicit row list. -/
def getMonthlySubscriptionsInPeriod (subs : List Subscription) (s e : GoTime) :
    List Subscription :=
  subs.filter (monthlyRowMatches s e)

/-- The computed summary of `CalculateForMonth`. -/
structure SpendingSummary where
  year : Int
  month : Int
  cutoffDay : Int
  periodStart : GoTime
  periodEnd : GoTime
  monthlyTotal : ℚ
  yearlyTotal : ℚ
  grandTotal : ℚ
  monthlyItems : List Subscription
  yearlyItems : List Subscription
  averageMonthly : ℚ
  monthlySalary : ℚ
  remaining : ℚ

/-- Embedding of `CalculateForMonth` (pure core): the configuration reads
(`cutoffDay`, `salary`) are parameters, the subscription collection is a
parameter, and the month range check is the `Option`. -/
def calculateForMonth (subs : List Subscription) (year month cutoffDay : Int)
    (salary : ℚ) : Option SpendingSummary :=
  if month < 1 ∨ month > 12 then none
  else
    let p := resolvePeriod year month cutoffDay
    let monthlySubs :=
      getMonthlySubscriptionsInPeriod (subs.filter (fun s => s.billingCycle == "monthly")) p.1 p.2
    let yearlySubs :=
      getYearlySubscriptionsInPeriod (subs.filter (fun s => s.billingCycle == "yearly")) p.1 p.2
    let monthlyTotal := monthlySubs.foldl (fun acc sub => acc + sub.amount) 0
    let yearlyTotal := yearlySubs.foldl (fun acc sub => acc + sub.amount) 0
    let grand := monthlyTotal + yearlyTotal
    some
      { year := year, month := month, cutoffDay := cutoffDay,
        periodStart := p.1, periodEnd := p.2,
        monthlyTotal := monthlyTotal, yearlyTotal := yearlyTotal, grandTotal := grand,
        monthlyItems := monthlySubs, yearlyItems := yearlySubs,
        averageMonthly := monthlyTotal + yearlyTotal / 12,
        monthlySalary := if 0 < salary then salary else 0,
        remaining := if 0 < salary then salary - grand else 0 }

/-! ## ParseMonth (spending.go) -/

/-- The whitespace class of `fmt`'s scanner (`fmt`'s `space` table):
U+0009-U+000D, space, U+0085, U+00A0, U+1680, U+2000-U+200A, U+2028,
U+2029, U+202F, U+205F and U+3000. -/
def isGoSpace (c : Char) : Bool :=
  (decide (9 ≤ c.toNat) && decide (c.toNat ≤ 13)) || c.toNat == 32 || c.toNat == 133 ||
    c.toNat == 160 || c.toNat == 5760 ||
    (decide (8192 ≤ c.toNat) && decide (c.toNat ≤ 8202)) || c.toNat == 8232 ||
    c.toNat == 8233 || c.toNat == 8239 || c.toNat == 8287 || c.toNat == 12288

/-- The blanks `fmt.Sscanf`'s scanner skips before a numeric verb
(`ss.SkipSpace` with `nlIsSpace = false`): every `space`-table rune except
a bare newline. A newline stops the skip and makes the scan fail
("unexpected newline" - also for `"\r\n"`, whose `'\r'` is consumed
first); in the model the stopped-at `'\n'` is not a digit, so `sscanfInt`
likewise returns `none` there. -/
def skipSpace (l : List Char) : List Char :=
  l.dropWhile fun c => isGoSpace c && !(c == '\n')

/-- Value of a digit string. -/
def digitsVal (l : List Char) : Int := l.foldl (fun acc c => 10 * acc + digitVal c) 0

/-- Modelled `fmt.Sscanf(monthStr, "%d", &month)`: skip leading scanner
whitespace (newline failing, see `skipSpace`), an optional sign, then one
or more decimal digits; trailing input is ignored (Sscanf scans a single
item and reports success). Go's `int` overflow failure on astronomically
long numerals differs only on inputs where `ParseMonth` errors either way
(value far outside `[1,12]`). -/
def sscanfInt (s : String) : Option Int :=
  let l := skipSpace s.data
  let p : Bool × List Char :=
    match l with
    | '-' :: r => (true, r)
    | '+' :: r => (false, r)
    | r => (false, r)
  let digs := p.2.takeWhile isDig
  if digs.isEmpty then none
  else some ((if p.1 then -1 else 1) * digitsVal digs)

/-- Go month names, with their 1-based numbers (`time.Month.String`). -/
def monthNamesIdx : List (Int × String) :=
  [(1, "January"), (2, "February"), (3, "March"), (4, "April"), (5, "May"), (6, "June"),
   (7, "July"), (8, "August"), (9, "September"), (10, "October"), (11, "November"),
   (12, "December")]

/-- The name loop of `ParseMonth`:
`for i := January..December { if monthStr == i.String() || monthStr == i.String()[:3] { return i } }`. -/
def monthFromName (s : String) : Option Int :=
  monthNamesIdx.findSome? fun p =>
    if s == p.2 || s == p.2.take 3 then some p.1 else none

/-- Embedding of `ParseMonth`. The empty string returns the current month
(`time.Now().Month()`), passed in as `nowMonth`. -/
def ParseMonth (nowMonth : Int) (s : String) : Except String Int :=
  if s == "" then .ok nowMonth
  else
    match sscanfInt s with
    | some month =>
      if month < 1 ∨ month > 12 then .error "month must be between 1 and 12"
      else .ok month
    | none =>
      match monthFromName s with
      | some i => .ok i
      | none => .error "invalid month (use 1-12 or month name)"

/-! ## Helper lemmas for the claims -/

set_option maxRecDepth 16000

theorem daysIn_two (y : Int) : daysIn y 2 = if isLeap y then 29 else 28 := by
  unfold daysIn
  norm_num

theorem addMonth_small (u : Date) (h : u.day ≤ 28) :
    addMonth u = ⟨(rollYM u).1, (rollYM u).2, u.day,
      ⟨(rollYM_bounds u).1, (rollYM_bounds u).2⟩,
      ⟨u.hd.1, by have := daysIn_ge (rollYM u).1 (rollYM u).2; omega⟩⟩ := by
  rw [Date.ext_iff]
  have hf := addMonth_fields u
  refine ⟨hf.1, hf.2.1, ?_⟩
  rw [hf.2.2]
  simp only [Date.day_mk]
  have := daysIn_ge (rollYM u).1 (rollYM u).2
  omega

theorem day_le_any (u : Date) (h : u.day ≤ 28) (y m : Int) :
    1 ≤ u.day ∧ u.day ≤ daysIn y m :=
  ⟨u.hd.1, by have := daysIn_ge y m; omega⟩

theorem iterAddMonth (k : Nat) : ∀ (u : Date) (h : u.day ≤ 28),
    addMonth^[k] u = ⟨(12 * u.year + u.month - 1 + k) / 12,
      (12 * u.year + u.month - 1 + k) % 12 + 1, u.day,
      by omega, day_le_any u h _ _⟩ := by
  induction k with
  | zero =>
    intro u h
    have hm := u.hm
    rw [Function.iterate_zero_apply, Date.ext_iff]
    refine ⟨?_, ?_, rfl⟩ <;> simp <;> omega
  | succ n ih =>
    intro u h
    have hf := addMonth_fields u
    have hday : (addMonth u).day = u.day := by
      rw [hf.2.2]
      have := daysIn_ge (rollYM u).1 (rollYM u).2
      omega
    rw [Function.iterate_succ_apply, ih (addMonth u) (by rw [hday]; exact h)]
    have hri := rollYM_index u
    rw [Date.ext_iff]
    refine ⟨?_, ?_, by simp [hday]⟩ <;>
      simp only [Date.year_mk, Date.month_mk] <;>
      rw [hf.1, hf.2.1] <;> omega

/-! ## The claims -/

/-- C1: for every valid year, month in [1,12] (with successor label rolling
December to January of the next year) and cutoff day in [1,28], the period
of (year, month, cutoffDay) ends exactly one second before the period of
the successor label starts: adjacent billing periods tile the calendar. -/
theorem claim_C1 (year month cutoffDay : Int) (hm : 1 ≤ month ∧ month ≤ 12)
    (hc : 1 ≤ cutoffDay ∧ cutoffDay ≤ 28) :
    (resolvePeriod year month cutoffDay).2.toSec + 1 =
      (resolvePeriod (if month = 12 then year + 1 else year)
        (if month = 12 then 1 else month + 1) cutoffDay).1.toSec := by
  have hre : ∀ (y m c : Int), resolvePeriod y m c =
      (midnight (goDate (if m - 1 < 1 then y - 1 else y)
                        (if m - 1 < 1 then 12 else m - 1) c),
       subOneSec (midnight (goDate y m c))) := fun _ _ _ => rfl
  rw [hre, hre]
  dsimp only
  by_cases h12 : month = 12
  · subst h12
    norm_num
    rw [subOneSec_toSec]
    omega
  · rw [if_neg h12, if_neg h12]
    have hlt : ¬(month + 1 - 1 < 1) := by omega
    rw [if_neg hlt, if_neg hlt]
    have he : month + 1 - 1 = month := by omega
    rw [he]
    rw [subOneSec_toSec]
    omega

/-- Witness for C1 at (2025, 12, 22): the December 2025 period ends one
second before the January 2026 period starts. -/
theorem claim_C1_witness :
    (resolvePeriod 2025 12 22).2.toSec + 1 = (resolvePeriod 2026 1 22).1.toSec := by
  have h := claim_C1 2025 12 22 (by norm_num) (by norm_num)
  norm_num at h
  exact h

/-- C2 counterexample: for the source date 2026-01-31 - whose day is not
Feb 29 - twelve applications of addMonth give 2027-01-28 while
AddDate(1,0,0) gives 2027-01-31, so the equivalence fails off Feb 29. -/
theorem claim_C2_counterexample :
    (⟨2026, 1, 31, by decide, by decide⟩ : Date).month ≠ 2 ∧
    addMonth^[12] (⟨2026, 1, 31, by decide, by decide⟩ : Date) =
      ⟨2027, 1, 28, by decide, by decide⟩ ∧
    addDate (⟨2026, 1, 31, by decide, by decide⟩ : Date) 1 0 0 =
      ⟨2027, 1, 31, by decide, by decide⟩ ∧
    (⟨2027, 1, 28, by decide, by decide⟩ : Date) ≠ ⟨2027, 1, 31, by decide, by decide⟩ := by
  refine ⟨by decide, ?_, by decide, by decide⟩
  decide

/-- C2 (amended): applying addMonth twelve times agrees with the yearly
step AddDate(1,0,0) on every date whose day is at most 28; for days 29-31
the month-length clamp can break the equivalence (and does, e.g., for
Jan 31 and Feb 29). -/
theorem claim_C2 (t : Date) (h28 : t.day ≤ 28) :
    addMonth^[12] t = addDate t 1 0 0 := by
  have hm := t.hm
  have hd := t.hd
  rw [iterAddMonth 12 t h28, addYear_spec t]
  rw [dif_pos (by have := daysIn_ge (t.year + 1) t.month; omega)]
  rw [Date.ext_iff]
  refine ⟨?_, ?_, rfl⟩ <;> simp <;> omega

/-- Witness for C2 at 2026-05-15. -/
theorem claim_C2_witness :
    addMonth^[12] (⟨2026, 5, 15, by decide, by decide⟩ : Date) =
      addDate (⟨2026, 5, 15, by decide, by decide⟩ : Date) 1 0 0 :=
  claim_C2 ⟨2026, 5, 15, by decide, by decide⟩ (by decide)

/-- C3 counterexample: the yearly step on 2024-02-29 produces 2025-03-01
(Go AddDate normalization), not the claimed clamp to 2025-02-28. -/
theorem claim_C3_counterexample :
    addDate (⟨2024, 2, 29, by decide, by decide⟩ : Date) 1 0 0 =
      ⟨2025, 3, 1, by decide, by decide⟩ ∧
    (⟨2025, 3, 1, by decide, by decide⟩ : Date) ≠ ⟨2025, 2, 28, by decide, by decide⟩ := by
  constructor
  · decide
  · decide

/-- C3 (amended): the yearly step increments the year keeping month and
day, except that a Feb 29 source whose target year is not leap normalizes
to Mar 1 of the target year (it is not clamped to Feb 28). -/
theorem claim_C3 (t : Date) :
    (addDate t 1 0 0).year = t.year + 1 ∧
    (if t.month = 2 ∧ t.day = 29 ∧ isLeap (t.year + 1) = false
     then (addDate t 1 0 0).month = 3 ∧ (addDate t 1 0 0).day = 1
     else (addDate t 1 0 0).month = t.month ∧ (addDate t 1 0 0).day = t.day) := by
  have hd := t.hd
  have h2 := daysIn_two (t.year + 1)
  rw [addYear_spec t]
  by_cases hcl : t.day ≤ daysIn (t.year + 1) t.month
  · rw [dif_pos hcl]
    have hcond : ¬(t.month = 2 ∧ t.day = 29 ∧ isLeap (t.year + 1) = false) := by
      rintro ⟨ha, hb, hc⟩
      rw [ha] at hcl
      rw [hc] at h2
      norm_num at h2
      omega
    rw [if_neg hcond]
    exact ⟨by simp, by simp, by simp⟩
  · rw [dif_neg hcl]
    have hm2 : t.month = 2 := by
      by_contra hne
      have := daysIn_ne_two t.year (t.year + 1) t.month hne
      omega
    have hd2 := daysIn_two t.year
    rw [hm2] at hcl hd
    have hg := daysIn_ge (t.year + 1) 2
    have hd29 : t.day = 29 := by
      split at hd2 <;> split at h2 <;> omega
    have hnl : isLeap (t.year + 1) = false := by
      cases hli : isLeap (t.year + 1)
      · rfl
      · rw [hli] at h2
        norm_num at h2
        split at hd2 <;> omega
    rw [if_pos ⟨hm2, hd29, hnl⟩]
    exact ⟨by simp, by simp, by simp⟩

/-- C9: a monthly subscription stored at 2026-01-31 advanced with
reference date 2026-02-15 lands on exactly 2026-02-28 (the day clamped to
the last day of February 2026). -/
theorem claim_C9 :
    CalculateNextRenewalDate (⟨2026, 1, 31, by decide, by decide⟩ : Date) "monthly"
      (⟨2026, 2, 15, by decide, by decide⟩ : Date) =
      ⟨2026, 2, 28, by decide, by decide⟩ := by
  decide

/-- C10: addMonth's result day is the minimum of the source day and the
length of the target month - never above the source day - so under
iteration the day component is non-increasing. -/
theorem claim_C10 (t : Date) :
    (addMonth t).day = min t.day (daysIn (addMonth t).year (addMonth t).month) ∧
    (∀ n : Nat, (addMonth^[n + 1] t).day ≤ (addMonth^[n] t).day) := by
  have key : ∀ u : Date, (addMonth u).day = min u.day (daysIn (rollYM u).1 (rollYM u).2) :=
    fun u => (addMonth_fields u).2.2
  constructor
  · rw [key t, (addMonth_fields t).1, (addMonth_fields t).2.1]
  · intro n
    rw [Function.iterate_succ_apply', key (addMonth^[n] t)]
    exact min_le_left _ _

/-- C7 counterexample: "7x" is neither a pure numeral nor a month
name/abbreviation, yet ParseMonth accepts it (Sscanf reads the leading
digits and ignores the rest), contradicting "fails with an error on every
other input". -/
theorem claim_C7_counterexample :
    ParseMonth 1 "7x" = .ok 7 ∧
    ("7x".data.all isDig) = false ∧
    (∀ p ∈ monthNamesIdx, "7x" ≠ p.2 ∧ "7x" ≠ p.2.take 3) := by
  refine ⟨rfl, rfl, ?_⟩
  decide

/-- C7 (amended): ParseMonth succeeds exactly on: the empty string (which
yields the current month), inputs whose leading Sscanf-%d scan yields a
value in [1,12] (Go scanner whitespace before the numeral is skipped and
trailing text is ignored), and exact month names or their 3-letter
abbreviations; it errors on everything else, including the out-of-range
numerals "13" and "0". "Jan"/"January" both yield 1, and a carriage
return or vertical tab before a numeral is skipped as Sscanf does. -/
theorem claim_C7 (nowMonth : Int) :
    (∀ s : String, (∃ v, ParseMonth nowMonth s = .ok v) ↔
      (s = "" ∨ (∃ v, sscanfInt s = some v ∧ 1 ≤ v ∧ v ≤ 12) ∨
        (sscanfInt s = none ∧ ∃ p ∈ monthNamesIdx, s = p.2 ∨ s = p.2.take 3))) ∧
    ParseMonth nowMonth "Jan" = .ok 1 ∧ ParseMonth nowMonth "January" = .ok 1 ∧
    ParseMonth nowMonth "13" = .error "month must be between 1 and 12" ∧
    ParseMonth nowMonth "0" = .error "month must be between 1 and 12" ∧
    ParseMonth nowMonth "\r7" = .ok 7 ∧
    ParseMonth nowMonth "\x0b7" = .ok 7 := by
  refine ⟨?_, rfl, rfl, rfl, rfl, rfl, rfl⟩
  intro s
  unfold ParseMonth
  by_cases hempty : s = ""
  · subst hempty
    simp
  · rw [if_neg (by simp [hempty])]
    cases hs : sscanfInt s with
    | some v =>
      dsimp only
      by_cases hv : v < 1 ∨ v > 12
      · rw [if_pos hv]
        simp only [hempty, false_or]
        constructor
        · rintro ⟨v', hv'⟩
          exact absurd hv' (by simp)
        · rintro (⟨v', hv', h1, h2⟩ | ⟨hnone, _⟩)
          · injection hv' with he
            omega
          · exact absurd hnone (by simp)
      · rw [if_neg hv]
        simp only [hempty, false_or]
        constructor
        · intro _
          refine Or.inl ⟨v, rfl, ?_, ?_⟩ <;> omega
        · intro _
          exact ⟨v, rfl⟩
    | none =>
      dsimp only
      cases hn : monthFromName s with
      | some i =>
        dsimp only
        simp only [hempty, false_or]
        unfold monthFromName at hn
        obtain ⟨p, hp, hf⟩ := List.exists_of_findSome?_eq_some hn
        constructor
        · intro _
          refine Or.inr ⟨by trivial, p, hp, ?_⟩
          by_cases hc : (s == p.2 || s == p.2.take 3) = true
          · simpa using hc
          · rw [if_neg hc] at hf
            exact absurd hf (by simp)
        · intro _
          exact ⟨i, rfl⟩
      | none =>
        dsimp only
        simp only [hempty, false_or]
        unfold monthFromName at hn
        have hforall := List.findSome?_eq_none_iff.mp hn
        constructor
        · rintro ⟨v', hv'⟩
          exact absurd hv' (by simp)
        · rintro (⟨v', hv', _, _⟩ | ⟨_, p, hp, hcase⟩)
          · exact absurd hv' (by simp)
          · have hfp := hforall p hp
            by_cases hc : (s == p.2 || s == p.2.take 3) = true
            · rw [if_pos hc] at hfp
              exact absurd hfp (by simp)
            · exact absurd hcase (by simpa using hc)

/-- C8 counterexample: with two overdue monthly subscriptions and a
persistence failure on the first write, the run performs no writes and
aborts naming the first subscription, although the second subscription had
an update pending (the advancer does not continue with remaining rows). -/
theorem claim_C8_counterexample :
    advanceRun (fun id => id == 1) (⟨2026, 3, 15, by decide, by decide⟩ : Date)
      [⟨1, "Netflix", 10, "monthly", some "2026-01-15"⟩,
       ⟨2, "Spotify", 20, "monthly", some "2026-01-20"⟩] = ([], some "Netflix") ∧
    (advanceStep (⟨2026, 3, 15, by decide, by decide⟩ : Date)
      ⟨2, "Spotify", 20, "monthly", some "2026-01-20"⟩).isSome = true := by
  constructor
  · rfl
  · rfl

/-- C8 (amended): when a write-back fails for one subscription, the run
reports the failure naming that subscription and stops - the writes made
before it stand, and the remaining subscriptions are not attempted. -/
theorem claim_C8 (f : Int → Bool) (today : Date) (xs : List Subscription)
    (y : Subscription) (zs : List Subscription) (s : String)
    (hxs : ∀ x ∈ xs, f x.id = false)
    (hy : advanceStep today y = some s) (hfy : f y.id = true) :
    advanceRun f today (xs ++ y :: zs) = (advanceRenewalDatesFrom xs today, some y.name) := by
  induction xs with
  | nil =>
    show advanceRun f today (y :: zs) = _
    unfold advanceRun
    rw [hy]
    dsimp only
    rw [if_pos hfy]
    rfl
  | cons x xs ih =>
    have hx : f x.id = false := hxs x (by simp)
    have hxs2 : ∀ x' ∈ xs, f x'.id = false := fun x' hx' => hxs x' (by simp [hx'])
    show advanceRun f today (x :: (xs ++ y :: zs)) = _
    unfold advanceRun
    cases hstep : advanceStep today x with
    | none =>
      dsimp only
      rw [ih hxs2]
      unfold advanceRenewalDatesFrom
      rw [List.filterMap_cons, hstep]
      rfl
    | some s2 =>
      dsimp only
      rw [if_neg (by rw [hx]; simp)]
      rw [ih hxs2]
      unfold advanceRenewalDatesFrom
      rw [List.filterMap_cons, hstep]
      rfl

/-! ## Round-trip of the stored-date format (for C4) -/

theorem isDig_digitChar (x : Int) (h0 : 0 ≤ x) (h9 : x ≤ 9) : isDig (digitChar x) = true := by
  interval_cases x <;> decide

theorem digitVal_digitChar (x : Int) (h0 : 0 ≤ x) (h9 : x ≤ 9) : digitVal (digitChar x) = x := by
  interval_cases x <;> decide

theorem digitVal_bounds (c : Char) (h : isDig c = true) : 0 ≤ digitVal c ∧ digitVal c ≤ 9 := by
  unfold isDig at h
  simp only [Bool.and_eq_true, decide_eq_true_eq] at h
  unfold digitVal
  omega

theorem parseDateCore_year_range (a1 a2 a3 a4 a5 a6 a7 a8 a9 a10 : Char) (t : Date)
    (h : parseDateCore a1 a2 a3 a4 a5 a6 a7 a8 a9 a10 = some t) :
    0 ≤ t.year ∧ t.year ≤ 9999 := by
  unfold parseDateCore at h
  split at h
  · rename_i hcond
    simp only [Bool.and_eq_true] at hcond
    obtain ⟨⟨⟨⟨⟨⟨⟨⟨⟨h1, h2⟩, h3⟩, h4⟩, h5⟩, h6⟩, h7⟩, h8⟩, h9d⟩, h10⟩ := hcond
    dsimp only at h
    split at h
    · injection h with hinj
      subst hinj
      have b1 := digitVal_bounds a1 h1
      have b2 := digitVal_bounds a2 h2
      have b3 := digitVal_bounds a3 h3
      have b4 := digitVal_bounds a4 h4
      simp only [Date.year_mk]
      omega
    · exact absurd h (by simp)
  · exact absurd h (by simp)

theorem parseDate_year_range (s : String) (t : Date) (h : parseDate s = some t) :
    0 ≤ t.year ∧ t.year ≤ 9999 := by
  unfold parseDate at h
  split at h
  · exact parseDateCore_year_range _ _ _ _ _ _ _ _ _ _ t h
  · exact absurd h (by simp)

theorem parseDate_mk_ten (y1 y2 y3 y4 sep1 mo1 mo2 sep2 d1 d2 : Char) :
    parseDate ⟨[y1, y2, y3, y4, sep1, mo1, mo2, sep2, d1, d2]⟩ =
      parseDateCore y1 y2 y3 y4 sep1 mo1 mo2 sep2 d1 d2 := rfl

set_option maxHeartbeats 2000000 in
theorem parseDate_formatDate (t : Date) (h0 : 0 ≤ t.year) (h9 : t.year ≤ 9999) :
    parseDate (formatDate t) = some t := by
  obtain ⟨y, m, d, hm, hd⟩ := t
  simp only [Date.year_mk] at h0 h9
  have hdle : d ≤ 31 := by have := daysIn_le y m; omega
  unfold formatDate yearChars pad2
  simp only [Date.year_mk, Date.month_mk, Date.day_mk]
  rw [if_neg (by omega), if_pos (by omega)]
  simp only [List.cons_append, List.nil_append]
  rw [parseDate_mk_ten]
  unfold parseDateCore
  rw [if_pos (by
    rw [isDig_digitChar (y / 1000) (by omega) (by omega),
      isDig_digitChar (y / 100 % 10) (by omega) (by omega),
      isDig_digitChar (y / 10 % 10) (by omega) (by omega),
      isDig_digitChar (y % 10) (by omega) (by omega),
      isDig_digitChar (m / 10 % 10) (by omega) (by omega),
      isDig_digitChar (m % 10) (by omega) (by omega),
      isDig_digitChar (d / 10 % 10) (by omega) (by omega),
      isDig_digitChar (d % 10) (by omega) (by omega)]
    rfl)]
  have hY : 1000 * (y / 1000) + 100 * (y / 100 % 10) + 10 * (y / 10 % 10) + y % 10 = y := by
    omega
  have hM : 10 * (m / 10 % 10) + m % 10 = m := by omega
  have hD : 10 * (d / 10 % 10) + d % 10 = d := by omega
  simp only [digitVal_digitChar (y / 1000) (by omega) (by omega),
    digitVal_digitChar (y / 100 % 10) (by omega) (by omega),
    digitVal_digitChar (y / 10 % 10) (by omega) (by omega),
    digitVal_digitChar (y % 10) (by omega) (by omega),
    digitVal_digitChar (m / 10 % 10) (by omega) (by omega),
    digitVal_digitChar (m % 10) (by omega) (by omega),
    digitVal_digitChar (d / 10 % 10) (by omega) (by omega),
    digitVal_digitChar (d % 10) (by omega) (by omega),
    hY, hM, hD]
  rw [dif_pos ⟨hm, hd⟩]

theorem natDigitsF_len :
    ∀ (fuel n k : Nat), 10 ^ k ≤ n → n ≤ fuel → k + 1 ≤ (natDigitsF fuel n).length := by
  intro fuel
  induction fuel with
  | zero =>
    intro n k hk hn
    have : 0 < 10 ^ k := pow_pos (by omega) k
    omega
  | succ f ih =>
    intro n k hk hn
    unfold natDigitsF
    by_cases h10 : n < 10
    · rw [if_pos h10]
      have hk0 : k = 0 := by
        by_contra hne
        have : 10 ^ 1 ≤ 10 ^ k := Nat.pow_le_pow_right (by omega) (by omega)
        simp at this
        omega
      subst hk0
      simp
    · rw [if_neg h10]
      rw [List.length_append]
      cases k with
      | zero => simp
      | succ k2 =>
        have hdiv : 10 ^ k2 ≤ n / 10 := by
          rw [Nat.le_div_iff_mul_le (by omega)]
          calc 10 ^ k2 * 10 = 10 ^ (k2 + 1) := by rw [pow_succ]
          _ ≤ n := hk
        have hfuel : n / 10 ≤ f := by omega
        have := ih (n / 10) k2 hdiv hfuel
        simp
        omega

theorem parseDate_length (s : String) (h : s.data.length ≠ 10) : parseDate s = none := by
  unfold parseDate
  obtain ⟨l⟩ := s
  show (match l with
    | [y1, y2, y3, y4, sep1, mo1, mo2, sep2, d1, d2] => _
    | _ => none) = none
  rcases l with _ | ⟨a1, _ | ⟨a2, _ | ⟨a3, _ | ⟨a4, _ | ⟨a5, _ | ⟨a6, _ | ⟨a7,
    _ | ⟨a8, _ | ⟨a9, _ | ⟨a10, _ | ⟨a11, rest⟩⟩⟩⟩⟩⟩⟩⟩⟩⟩⟩ <;>
    first | rfl | (exfalso; apply h; rfl)

theorem parseDate_formatDate_big (t : Date) (h : 10000 ≤ t.year) :
    parseDate (formatDate t) = none := by
  apply parseDate_length
  unfold formatDate yearChars pad2
  rw [if_neg (by omega), if_neg (by omega)]
  have hlen := natDigitsF_len (t.year.toNat + 1) t.year.toNat 4 (by norm_num; omega) (by omega)
  simp only [List.length_append, List.length_cons]
  norm_num at hlen ⊢
  omega

/-! ## Year monotonicity of the advance loops (for C4) -/

theorem rollYM_fst_ge (t : Date) : t.year ≤ (rollYM t).1 := by
  unfold rollYM
  split <;> simp <;> omega

theorem advMonthly_year (ref : Date) : ∀ (n : Nat) (d : Date), d.year ≤ (advMonthly ref n d).year := by
  intro n
  induction n with
  | zero => intro d; exact le_refl _
  | succ k ih =>
    intro d
    show d.year ≤ (if beforeD d ref then advMonthly ref k (addMonth d) else d).year
    split
    · calc d.year ≤ (addMonth d).year := by rw [(addMonth_fields d).1]; exact rollYM_fst_ge d
      _ ≤ _ := ih (addMonth d)
    · exact le_refl _

theorem advYearly_year (ref : Date) : ∀ (n : Nat) (d : Date), d.year ≤ (advYearly ref n d).year := by
  intro n
  induction n with
  | zero => intro d; exact le_refl _
  | succ k ih =>
    intro d
    show d.year ≤ (if beforeD d ref then advYearly ref k (addDate d 1 0 0) else d).year
    split
    · calc d.year ≤ (addDate d 1 0 0).year := by rw [addDate_year]; omega
      _ ≤ _ := ih (addDate d 1 0 0)
    · exact le_refl _

theorem calculateNextRenewalDate_year (cur : Date) (cycle : String) (ref : Date) :
    cur.year ≤ (CalculateNextRenewalDate cur cycle ref).year := by
  unfold CalculateNextRenewalDate
  split
  · exact advMonthly_year ref _ cur
  · exact advYearly_year ref _ cur

/-! ## The advancer run (for C4, C8) -/

theorem advanceStep_some (today : Date) (sub : Subscription) (s : String)
    (h : advanceStep today sub = some s) :
    ∃ str d, sub.nextRenewalDate = some str ∧ parseDate str = some d ∧
      beforeD d today = true ∧
      s = formatDate (CalculateNextRenewalDate d sub.billingCycle today) := by
  unfold advanceStep at h
  cases hn : sub.nextRenewalDate with
  | none => rw [hn] at h; exact absurd h (by simp)
  | some str =>
    rw [hn] at h
    dsimp only at h
    cases hp : parseDate str with
    | none => rw [hp] at h; exact absurd h (by simp)
    | some d =>
      rw [hp] at h
      dsimp only at h
      by_cases hb : beforeD d today = true
      · rw [if_pos hb] at h
        injection h with h2
        exact ⟨str, d, rfl, hp, hb, h2.symm⟩
      · rw [if_neg hb] at h
        exact absurd h (by simp)

theorem advanceStep_applyAdvance (today : Date) (sub : Subscription) :
    advanceStep today (applyAdvance today sub) = none := by
  cases hstep : advanceStep today sub with
  | none =>
    unfold applyAdvance
    rw [hstep]
    exact hstep
  | some s =>
    obtain ⟨str, d, hn, hp, hb, hs⟩ := advanceStep_some today sub s hstep
    unfold applyAdvance
    rw [hstep]
    dsimp only
    set nd := CalculateNextRenewalDate d sub.billingCycle today with hnd
    have hyear0 : 0 ≤ nd.year := by
      have h1 := (parseDate_year_range str d hp).1
      have h2 := calculateNextRenewalDate_year d sub.billingCycle today
      rw [← hnd] at h2
      omega
    unfold advanceStep
    dsimp only
    by_cases hbig : nd.year ≤ 9999
    · rw [hs, parseDate_formatDate nd hyear0 hbig]
      dsimp only
      rw [if_neg (by rw [calculateNextRenewalDate_not_before d sub.billingCycle today]; simp)]
    · rw [hs, parseDate_formatDate_big nd (by omega)]

/-- C4: the renewal advancer is idempotent. After one run (its updates
written back), a second run with the same reference date produces no
updates; every date the first run produced is on or after the reference
date; rows whose stored date is already on or after the reference date are
left untouched. -/
theorem claim_C4 (subs : List Subscription) (today : Date) :
    advanceRenewalDatesFrom (subs.map (applyAdvance today)) today = [] ∧
    (∀ sub ∈ subs, ∀ s, advanceStep today sub = some s →
      ∀ nd, parseDate s = some nd → beforeD nd today = false) ∧
    (∀ (sub : Subscription) (str : String) (d : Date), sub.nextRenewalDate = some str →
      parseDate str = some d → beforeD d today = false → applyAdvance today sub = sub) := by
  refine ⟨?_, ?_, ?_⟩
  · unfold advanceRenewalDatesFrom
    rw [List.filterMap_eq_nil_iff]
    intro sub hsub
    obtain ⟨x, _, hx⟩ := List.mem_map.mp hsub
    rw [← hx, advanceStep_applyAdvance today x]
    rfl
  · intro sub _ s hstep nd hnd
    obtain ⟨str, d, hn, hp, hb, hs⟩ := advanceStep_some today sub s hstep
    set nd0 := CalculateNextRenewalDate d sub.billingCycle today with hnd0
    have hyear0 : 0 ≤ nd0.year := by
      have h1 := (parseDate_year_range str d hp).1
      have h2 := calculateNextRenewalDate_year d sub.billingCycle today
      rw [← hnd0] at h2
      omega
    by_cases hbig : nd0.year ≤ 9999
    · rw [hs, parseDate_formatDate nd0 hyear0 hbig] at hnd
      injection hnd with h2
      rw [← h2]
      exact calculateNextRenewalDate_not_before d sub.billingCycle today
    · rw [hs, parseDate_formatDate_big nd0 (by omega)] at hnd
      exact absurd hnd (by simp)
  · intro sub str d hn hp hb
    unfold applyAdvance advanceStep
    rw [hn]
    dsimp only
    rw [hp]
    dsimp only
    rw [if_neg (by rw [hb]; simp)]

/-- Witness for C4 on a two-row collection (one overdue monthly row, one
future yearly row) at reference date 2026-03-15. -/
theorem claim_C4_witness :
    advanceRenewalDatesFrom
      (([⟨1, "Netflix", 10, "monthly", some "2026-01-15"⟩,
         ⟨2, "Prime", 99, "yearly", some "2026-06-15"⟩] : List Subscription).map
        (applyAdvance ⟨2026, 3, 15, by decide, by decide⟩))
      ⟨2026, 3, 15, by decide, by decide⟩ = [] :=
  (claim_C4 [⟨1, "Netflix", 10, "monthly", some "2026-01-15"⟩,
    ⟨2, "Prime", 99, "yearly", some "2026-06-15"⟩] ⟨2026, 3, 15, by decide, by decide⟩).1

/-- Witness for C8: first row persists fine, second row's write fails, so
the run keeps the first write and aborts naming the second subscription. -/
theorem claim_C8_witness :
    advanceRun (fun id => id == 2) (⟨2026, 3, 15, by decide, by decide⟩ : Date)
      ([⟨1, "Netflix", 10, "monthly", some "2026-01-15"⟩] ++
        (⟨2, "Spotify", 20, "monthly", some "2026-01-20"⟩ : Subscription) :: []) =
      (advanceRenewalDatesFrom [⟨1, "Netflix", 10, "monthly", some "2026-01-15"⟩]
        ⟨2026, 3, 15, by decide, by decide⟩, some "Spotify") :=
  claim_C8 (fun id => id == 2) ⟨2026, 3, 15, by decide, by decide⟩
    [⟨1, "Netflix", 10, "monthly", some "2026-01-15"⟩]
    ⟨2, "Spotify", 20, "monthly", some "2026-01-20"⟩ [] "2026-03-20"
    (by decide) rfl rfl

/-- C5 counterexample: with cutoff day 1, the yearly subscription stored at
2025-06-15 is NOT included by summarize for (2026, 6) - the matcher only
tests literal containment of the stored date, and the (2026, 6) period is
2026-05-01 through 2026-05-31 - so its yearlyTotal is 0, not the amount. -/
theorem claim_C5_counterexample :
    (calculateForMonth [⟨1, "Adobe", 100, "yearly", some "2025-06-15"⟩] 2026 6 1 0).map
        (fun s => s.yearlyItems) = some [] ∧
    (calculateForMonth [⟨1, "Adobe", 100, "yearly", some "2025-06-15"⟩] 2026 6 1 0).map
        (fun s => s.yearlyTotal) = some 0 ∧
    (0 : ℚ) ≠ 100 := by
  refine ⟨by decide, rfl, by norm_num⟩

/-- C5 (amended): with cutoff day 1 the stored date 2025-06-15 lies in the
period labelled (2025, 7) (2025-06-01 through 2025-06-30), so summarize
for (2025, 7) includes the subscription with yearlyTotal equal to its
amount, while both (2026, 6) and (2026, 7) exclude it (yearlyTotal 0). -/
theorem claim_C5 :
    (calculateForMonth [⟨1, "Adobe", 100, "yearly", some "2025-06-15"⟩] 2025 7 1 0).map
        (fun s => s.yearlyItems) = some [⟨1, "Adobe", 100, "yearly", some "2025-06-15"⟩] ∧
    (calculateForMonth [⟨1, "Adobe", 100, "yearly", some "2025-06-15"⟩] 2025 7 1 0).map
        (fun s => s.yearlyTotal) = some 100 ∧
    (calculateForMonth [⟨1, "Adobe", 100, "yearly", some "2025-06-15"⟩] 2026 6 1 0).map
        (fun s => s.yearlyTotal) = some 0 ∧
    (calculateForMonth [⟨1, "Adobe", 100, "yearly", some "2025-06-15"⟩] 2026 7 1 0).map
        (fun s => s.yearlyTotal) = some 0 := by
  refine ⟨by decide, ?_, rfl, rfl⟩
  have h : (calculateForMonth [⟨1, "Adobe", 100, "yearly", some "2025-06-15"⟩] 2025 7 1 0).map
      (fun s => s.yearlyTotal) = some ((0 : ℚ) + 100) := rfl
  rw [h]
  norm_num

/-! ## Helper lemmas for C6 -/

theorem monthLoop_succ (renewalDay : Int) (pStart pEnd endMonth : GoTime) (n : Nat)
    (current : GoTime) :
    monthLoop renewalDay pStart pEnd endMonth (n + 1) current =
      if endMonth.toSec < current.toSec then none
      else
        if isDateInPeriod (midnight (goDate current.date.year current.date.month
            (if renewalDay > lastDayOfMonth current.date.year current.date.month
             then lastDayOfMonth current.date.year current.date.month else renewalDay)))
            pStart pEnd = true then
          some (midnight (goDate current.date.year current.date.month
            (if renewalDay > lastDayOfMonth current.date.year current.date.month
             then lastDayOfMonth current.date.year current.date.month else renewalDay)))
        else monthLoop renewalDay pStart pEnd endMonth n
          (midnight (addDate current.date 0 1 0)) := rfl

theorem toD_first_of_next (py pm : Int) (h1 : 1 ≤ pm) (h2 : pm ≤ 12) :
    toD (if pm = 12 then py + 1 else py) (if pm = 12 then 1 else pm + 1) 1 =
      toD py pm 1 + daysIn py pm := by
  by_cases h12 : pm = 12
  · subst h12
    rw [if_pos rfl, if_pos rfl, daysIn_twelve]
    have key := leaps_step py
    cases hl : isLeap py <;>
      simp only [hl, if_true, if_false, Bool.false_eq_true, toD, daysBeforeMonth] at key ⊢ <;>
      norm_num <;> omega
  · rw [if_neg h12, if_neg h12]
    have key := daysBeforeMonth_succ py pm h1 (by omega)
    unfold toD
    omega

theorem prevDay_big (y m c : Int) (hm : 1 ≤ m ∧ m ≤ 12) (hd : 1 ≤ c ∧ c ≤ daysIn y m)
    (h2 : 2 ≤ c) :
    prevDay ⟨y, m, c, hm, hd⟩ = ⟨y, m, c - 1, hm, by have := daysIn_ge y m; omega⟩ := by
  unfold prevDay
  rw [dif_pos (by simp; omega)]

/-- The month-projection loop always finds a hit inside the billing period
`[midnight (py, pm, c), one second before midnight (y2, m2, c)]` where
`(y2, m2)` is the calendar month after `(py, pm)` and `c ≤ 28`. -/
theorem calcMonthly_some (py pm y2 m2 c day : Int)
    (hpm : 1 ≤ pm ∧ pm ≤ 12) (hm2 : 1 ≤ m2 ∧ m2 ≤ 12) (hc : 1 ≤ c ∧ c ≤ 28)
    (hday : 1 ≤ day ∧ day ≤ 31)
    (hsucc : 12 * y2 + m2 = 12 * py + pm + 1)
    (htod : toD y2 m2 1 = toD py pm 1 + daysIn py pm) :
    (calculateMonthlyRenewalInPeriod day
      (midnight ⟨py, pm, c, hpm, by have := daysIn_ge py pm; omega⟩)
      (⟨prevDay ⟨y2, m2, c, hm2, by have := daysIn_ge y2 m2; omega⟩, 86399,
        by omega⟩ : GoTime)).isSome = true := by
  have hgp := daysIn_ge py pm
  have hg2 := daysIn_ge y2 m2
  have hlp := daysIn_le py pm
  by_cases hc2 : 2 ≤ c
  · -- cutoff at least 2: the period spans the tail of (py, pm) and the
    -- head of (y2, m2); the loop visits both months.
    rw [prevDay_big y2 m2 c hm2 _ hc2]
    unfold calculateMonthlyRenewalInPeriod
    simp only [midnight, GoTime.date_mk, Date.year_mk, Date.month_mk]
    rw [goDate_valid py pm 1 hpm ⟨le_refl _, by omega⟩,
      goDate_valid y2 m2 1 hm2 ⟨le_refl _, by omega⟩]
    have hfuel : (12 * y2 + m2 + 1 - (12 * py + pm)).toNat + 1 = 3 := by omega
    rw [hfuel]
    rw [monthLoop_succ]
    rw [if_neg (by
      simp only [midnight, GoTime.toSec_mk, GoTime.date_mk, Date.toDays_mk]
      simp only [toD] at htod ⊢
      omega)]
    simp only [GoTime.date_mk, Date.year_mk, Date.month_mk]
    rw [lastDayOfMonth_eq py pm hpm.1 hpm.2]
    by_cases hdc : c ≤ day
    · -- the clamped occurrence in (py, pm) is at or after the cutoff
      have hd1 : 1 ≤ (if day > daysIn py pm then daysIn py pm else day) ∧
          c ≤ (if day > daysIn py pm then daysIn py pm else day) ∧
          (if day > daysIn py pm then daysIn py pm else day) ≤ daysIn py pm := by
        split <;> omega
      rw [goDate_valid py pm _ hpm ⟨hd1.1, hd1.2.2⟩]
      rw [if_pos (by
        simp only [isDateInPeriod, midnight, GoTime.toSec_mk, GoTime.date_mk, Date.toDays_mk,
          Bool.or_eq_true, Bool.and_eq_true, decide_eq_true_eq, beq_iff_eq]
        simp only [toD] at htod ⊢
        omega)]
      rfl
    · -- the stored day is below the cutoff: the occurrence in (py, pm)
      -- misses, the one in (y2, m2) hits.
      have hite : (if day > daysIn py pm then daysIn py pm else day) = day := by
        split <;> omega
      rw [hite]
      rw [goDate_valid py pm day hpm ⟨hday.1, by omega⟩]
      rw [if_neg (by
        simp only [isDateInPeriod, midnight, GoTime.toSec_mk, GoTime.date_mk, Date.toDays_mk,
          Bool.or_eq_true, Bool.and_eq_true, decide_eq_true_eq, beq_iff_eq]
        simp only [toD] at htod ⊢
        intro hcontra
        omega)]
      have hnextC : addDate (⟨py, pm, 1, hpm, ⟨le_refl _, by omega⟩⟩ : Date) 0 1 0 =
          ⟨y2, m2, 1, hm2, ⟨le_refl _, by omega⟩⟩ := by
        unfold addDate
        simp only [Date.year_mk, Date.month_mk, Date.day_mk, add_zero]
        by_cases h12 : pm = 12
        · subst h12
          rw [show (12 : Int) + 1 = 13 from by norm_num, goDate_thirteen]
          rw [Date.ext_iff]
          refine ⟨by simp; omega, by simp; omega, by simp⟩
        · rw [goDate_valid py (pm + 1) 1 ⟨by omega, by omega⟩
            ⟨le_refl _, by have := daysIn_ge py (pm + 1); omega⟩]
          rw [Date.ext_iff]
          refine ⟨by simp; omega, by simp; omega, by simp⟩
      rw [hnextC]
      rw [monthLoop_succ]
      rw [if_neg (by
        simp only [midnight, GoTime.toSec_mk, GoTime.date_mk, Date.toDays_mk]
        omega)]
      simp only [midnight, GoTime.date_mk, Date.year_mk, Date.month_mk]
      rw [lastDayOfMonth_eq y2 m2 hm2.1 hm2.2]
      have hite2 : (if day > daysIn y2 m2 then daysIn y2 m2 else day) = day := by
        split <;> omega
      rw [hite2]
      rw [goDate_valid y2 m2 day hm2 ⟨hday.1, by omega⟩]
      rw [if_pos (by
        simp only [isDateInPeriod, midnight, GoTime.toSec_mk, GoTime.date_mk, Date.toDays_mk,
          Bool.or_eq_true, Bool.and_eq_true, decide_eq_true_eq, beq_iff_eq]
        simp only [toD] at htod ⊢
        omega)]
      rfl
  · -- cutoff 1: the period is exactly the whole month (py, pm) and the
    -- loop's single month already contains the clamped occurrence.
    have hc1 : c = 1 := by omega
    subst hc1
    have hend : prevDay ⟨y2, m2, 1, hm2, by omega⟩ =
        ⟨py, pm, daysIn py pm, hpm, ⟨by omega, le_refl _⟩⟩ := by
      unfold prevDay
      rw [dif_neg (by simp)]
      by_cases hm21 : 1 < m2
      · rw [dif_pos (by simp; omega)]
        rw [Date.ext_iff]
        refine ⟨by simp; omega, by simp; omega, ?_⟩
        simp only [Date.day_mk, Date.year_mk, Date.month_mk]
        have h1 : y2 = py := by omega
        have h2 : m2 - 1 = pm := by omega
        rw [h1, h2]
      · rw [dif_neg (by simp; omega)]
        rw [Date.ext_iff]
        have h1 : y2 - 1 = py := by omega
        have h2 : pm = 12 := by omega
        refine ⟨by simp; omega, by simp; omega, ?_⟩
        simp only [Date.day_mk]
        rw [h2, daysIn_twelve]
    rw [hend]
    unfold calculateMonthlyRenewalInPeriod
    simp only [midnight, GoTime.date_mk, Date.year_mk, Date.month_mk]
    rw [goDate_valid py pm 1 hpm ⟨le_refl _, by omega⟩]
    have hfuel : (12 * py + pm + 1 - (12 * py + pm)).toNat + 1 = 2 := by omega
    rw [hfuel]
    rw [monthLoop_succ]
    rw [if_neg (by
      simp only [midnight, GoTime.toSec_mk, GoTime.date_mk, Date.toDays_mk]
      omega)]
    simp only [GoTime.date_mk, Date.year_mk, Date.month_mk]
    rw [lastDayOfMonth_eq py pm hpm.1 hpm.2]
    have hd1 : 1 ≤ (if day > daysIn py pm then daysIn py pm else day) ∧
        (if day > daysIn py pm then daysIn py pm else day) ≤ daysIn py pm := by
      split <;> omega
    rw [goDate_valid py pm _ hpm hd1]
    rw [if_pos (by
      simp only [isDateInPeriod, midnight, GoTime.toSec_mk, GoTime.date_mk, Date.toDays_mk,
        Bool.or_eq_true, Bool.and_eq_true, decide_eq_true_eq, beq_iff_eq]
      simp only [toD]
      omega)]
    rfl

theorem resolvePeriod_monthly_always (year month c day : Int)
    (hm : 1 ≤ month ∧ month ≤ 12) (hc : 1 ≤ c ∧ c ≤ 28) (hday : 1 ≤ day ∧ day ≤ 31) :
    (calculateMonthlyRenewalInPeriod day (resolvePeriod year month c).1
      (resolvePeriod year month c).2).isSome = true := by
  have hre : resolvePeriod year month c =
      (midnight (goDate (if month - 1 < 1 then year - 1 else year)
                        (if month - 1 < 1 then 12 else month - 1) c),
       subOneSec (midnight (goDate year month c))) := rfl
  rw [hre]
  dsimp only
  rw [goDate_valid year month c hm ⟨hc.1, by have := daysIn_ge year month; omega⟩]
  have hsub : subOneSec (midnight ⟨year, month, c, hm,
        ⟨hc.1, by have := daysIn_ge year month; omega⟩⟩) =
      ⟨prevDay ⟨year, month, c, hm, ⟨hc.1, by have := daysIn_ge year month; omega⟩⟩, 86399,
        by omega⟩ := rfl
  rw [hsub]
  by_cases hjan : month = 1
  · subst hjan
    rw [if_pos (by norm_num), if_pos (by norm_num)]
    rw [goDate_valid (year - 1) 12 c ⟨by omega, le_refl _⟩ ⟨hc.1, by rw [daysIn_twelve]; omega⟩]
    have h := toD_first_of_next (year - 1) 12 (by omega) (le_refl _)
    norm_num at h
    exact calcMonthly_some (year - 1) 12 year 1 c day ⟨by omega, le_refl _⟩ hm hc hday
      (by omega) h
  · rw [if_neg (by omega), if_neg (by omega)]
    rw [goDate_valid year (month - 1) c ⟨by omega, by omega⟩
      ⟨hc.1, by have := daysIn_ge year (month - 1); omega⟩]
    have h := toD_first_of_next year (month - 1) (by omega) (by omega)
    rw [if_neg (by omega), if_neg (by omega), show month - 1 + 1 = month from by omega] at h
    exact calcMonthly_some year (month - 1) year month c day ⟨by omega, by omega⟩ hm hc hday
      (by omega) h

/-- C6: for every cutoff day in [1,28], every period resolved from a valid
(year, month), and every monthly subscription whose stored renewal date
parses, the monthly recurrence matcher includes the subscription: either
the literal stored date lies in the period or a clamped occurrence of its
day in one of the months the period touches does, so the row is kept by
the monthly filter. -/
theorem claim_C6 (year month cutoffDay : Int) (hm : 1 ≤ month ∧ month ≤ 12)
    (hc : 1 ≤ cutoffDay ∧ cutoffDay ≤ 28) (sub : Subscription) (str : String) (d : Date)
    (hn : sub.nextRenewalDate = some str) (hp : parseDate str = some d) :
    monthlyRowMatches (resolvePeriod year month cutoffDay).1
      (resolvePeriod year month cutoffDay).2 sub = true ∧
    (∀ subs : List Subscription, sub ∈ subs →
      sub ∈ getMonthlySubscriptionsInPeriod subs (resolvePeriod year month cutoffDay).1
        (resolvePeriod year month cutoffDay).2) := by
  have hmatch : monthlyRowMatches (resolvePeriod year month cutoffDay).1
      (resolvePeriod year month cutoffDay).2 sub = true := by
    unfold monthlyRowMatches
    rw [hn]
    dsimp only
    rw [hp]
    dsimp only
    have hd := d.hd
    have hle := daysIn_le d.year d.month
    rw [resolvePeriod_monthly_always year month cutoffDay d.day hm hc ⟨hd.1, by omega⟩]
    simp
  refine ⟨hmatch, fun subs hsub => ?_⟩
  unfold getMonthlySubscriptionsInPeriod
  exact List.mem_filter.mpr ⟨hsub, hmatch⟩

/-- Witness for C6: the monthly subscription stored at 2026-01-20 matches
the (2026, 2) period with cutoff day 15. -/
theorem claim_C6_witness :
    monthlyRowMatches (resolvePeriod 2026 2 15).1 (resolvePeriod 2026 2 15).2
      ⟨1, "Sub Day 20", 10, "monthly", some "2026-01-20"⟩ = true :=
  (claim_C6 2026 2 15 (by norm_num) (by norm_num)
    ⟨1, "Sub Day 20", 10, "monthly", some "2026-01-20"⟩ "2026-01-20"
    ⟨2026, 1, 20, by decide, by decide⟩ rfl (by decide)).1

end SubTracker
